import Mathlib

set_option maxRecDepth 8192

/-!
Shallow embedding of the `dragonfly2imgproxy` middleware
(`dragonfly2imgproxy.go`): a Traefik-style plugin that verifies a signed,
base64url-encoded "Dragonfly" job list embedded in the request path and
rewrites the request into the imgproxy URL dialect.

Conventions of the embedding:
* Go byte slices are `List Nat` (each element < 256).
* Go strings are Lean `String`; `[]byte(s)` is `utf8Bytes s`.
* A Go runtime panic (index out of range on a job slice) is modelled as
  `Option.none` / the `Outcome.crash` outcome.
* `http.Error` followed by `return` (the next handler is not invoked) is
  `Outcome.error`, carrying the request object in the state it was left in.
-/

namespace D2I

/-- UTF-8 encoding of one character, as Go produces for `[]byte(string)`. -/
def utf8Char (c : Char) : List Nat :=
  let n := c.toNat
  if n < 128 then [n]
  else if n < 2048 then [192 + n / 64, 128 + n % 64]
  else if n < 65536 then [224 + n / 4096, 128 + (n / 64) % 64, 128 + n % 64]
  else [240 + n / 262144, 128 + (n / 4096) % 64, 128 + (n / 64) % 64, 128 + n % 64]

/-- `[]byte(s)` in Go: the UTF-8 bytes of a string. -/
def utf8Bytes (s : String) : List Nat :=
  (s.data.map utf8Char).flatten

/-! ### SHA-256 (crypto/sha256), on byte lists, word arithmetic mod 2^32 -/

def pow32 : Nat := 4294967296

def wrot (n x : Nat) : Nat := ((x >>> n) ||| (x <<< (32 - n))) % pow32

def sha256K : List Nat :=
  [1116352408, 1899447441, 3049323471, 3921009573, 961987163,
   1508970993, 2453635748, 2870763221, 3624381080, 310598401,
   607225278, 1426881987, 1925078388, 2162078206, 2614888103,
   3248222580, 3835390401, 4022224774, 264347078, 604807628,
   770255983, 1249150122, 1555081692, 1996064986, 2554220882,
   2821834349, 2952996808, 3210313671, 3336571891, 3584528711,
   113926993, 338241895, 666307205, 773529912, 1294757372,
   1396182291, 1695183700, 1986661051, 2177026350, 2456956037,
   2730485921, 2820302411, 3259730800, 3345764771, 3516065817,
   3600352804, 4094571909, 275423344, 430227734, 506948616,
   659060556, 883997877, 958139571, 1322822218, 1537002063,
   1747873779, 1955562222, 2024104815, 2227730452, 2361852424,
   2428436474, 2756734187, 3204031479, 3329325298]

structure Hash8 where
  a : Nat
  b : Nat
  c : Nat
  d : Nat
  e : Nat
  f : Nat
  g : Nat
  h : Nat
deriving DecidableEq

def sha256Init : Hash8 :=
  ⟨1779033703, 3144134277, 1013904242, 2773480762,
   1359893119, 2600822924, 528734635, 1541459225⟩

/-- Message-schedule extension: from the 16 block words to 64 words. -/
def sha256Schedule (block : List Nat) : List Nat :=
  (List.range 48).foldl
    (fun w _ =>
      let n := w.length
      let s0 :=
        (wrot 7 (w.getD (n - 15) 0)) ^^^ (wrot 18 (w.getD (n - 15) 0)) ^^^
          ((w.getD (n - 15) 0) >>> 3)
      let s1 :=
        (wrot 17 (w.getD (n - 2) 0)) ^^^ (wrot 19 (w.getD (n - 2) 0)) ^^^
          ((w.getD (n - 2) 0) >>> 10)
      w ++ [(s1 + w.getD (n - 7) 0 + s0 + w.getD (n - 16) 0) % pow32])
    block

def sha256Round (st : Hash8) (kw : Nat × Nat) : Hash8 :=
  let S1 := (wrot 6 st.e) ^^^ (wrot 11 st.e) ^^^ (wrot 25 st.e)
  let ch := (st.e &&& st.f) ^^^ (((pow32 - 1) - st.e) &&& st.g)
  let t1 := (st.h + S1 + ch + kw.1 + kw.2) % pow32
  let S0 := (wrot 2 st.a) ^^^ (wrot 13 st.a) ^^^ (wrot 22 st.a)
  let mj := (st.a &&& st.b) ^^^ (st.a &&& st.c) ^^^ (st.b &&& st.c)
  let t2 := (S0 + mj) % pow32
  ⟨(t1 + t2) % pow32, st.a, st.b, st.c, (st.d + t1) % pow32, st.e, st.f, st.g⟩

def sha256Compress (hv : Hash8) (block : List Nat) : Hash8 :=
  let w := sha256Schedule block
  let st := (sha256K.zip w).foldl sha256Round hv
  ⟨(hv.a + st.a) % pow32, (hv.b + st.b) % pow32, (hv.c + st.c) % pow32,
   (hv.d + st.d) % pow32, (hv.e + st.e) % pow32, (hv.f + st.f) % pow32,
   (hv.g + st.g) % pow32, (hv.h + st.h) % pow32⟩

/-- Big-endian 32-bit words from bytes (length a multiple of 4). -/
def bytesToWords : List Nat → List Nat
  | a :: b :: c :: d :: rest => (((a * 256 + b) * 256 + c) * 256 + d) :: bytesToWords rest
  | _ => []

/-- Process 16-word blocks; `fuel` bounds the recursion (any value
≥ the number of blocks gives the full digest). -/
def sha256Blocks : Nat → Hash8 → List Nat → Hash8
  | 0, hv, _ => hv
  | _ + 1, hv, [] => hv
  | fuel + 1, hv, ws => sha256Blocks fuel (sha256Compress hv (ws.take 16)) (ws.drop 16)

/-- SHA-256 padding: 0x80, zeros, 8-byte big-endian bit length. -/
def sha256Pad (msg : List Nat) : List Nat :=
  let len := msg.length
  let zeros := (64 - (len + 9) % 64) % 64
  let bits := len * 8
  msg ++ [128] ++ List.replicate zeros 0 ++
    [(bits / 2 ^ 56) % 256, (bits / 2 ^ 48) % 256, (bits / 2 ^ 40) % 256,
     (bits / 2 ^ 32) % 256, (bits / 2 ^ 24) % 256, (bits / 2 ^ 16) % 256,
     (bits / 2 ^ 8) % 256, bits % 256]

def wordBytes (w : Nat) : List Nat :=
  [(w / 2 ^ 24) % 256, (w / 2 ^ 16) % 256, (w / 2 ^ 8) % 256, w % 256]

/-- SHA-256 digest (32 bytes) of a byte list. -/
def sha256 (msg : List Nat) : List Nat :=
  let ws := bytesToWords (sha256Pad msg)
  let hv := sha256Blocks ws.length sha256Init ws
  wordBytes hv.a ++ wordBytes hv.b ++ wordBytes hv.c ++ wordBytes hv.d ++
    wordBytes hv.e ++ wordBytes hv.f ++ wordBytes hv.g ++ wordBytes hv.h

/-- HMAC-SHA256 (crypto/hmac with sha256.New). -/
def hmacSha256 (key msg : List Nat) : List Nat :=
  let k0 := if key.length > 64 then sha256 key else key
  let k1 := k0 ++ List.replicate (64 - k0.length) 0
  let ipadKey := k1.map (fun b => b ^^^ 0x36)
  let opadKey := k1.map (fun b => b ^^^ 0x5c)
  sha256 (opadKey ++ sha256 (ipadKey ++ msg))

/-- Lowercase hex digit, as `fmt.Sprintf("%x", ...)` emits. -/
def hexLower (n : Nat) : Char :=
  Char.ofNat (if n < 10 then 48 + n else 87 + n)

/-- Lowercase hex string of a byte list (`fmt.Sprintf("%x", digest)`). -/
def bytesToHex (bs : List Nat) : List Char :=
  (bs.map (fun b => [hexLower (b / 16), hexLower (b % 16)])).flatten

/-! ### calculateSHA

Go source (`calculateSHA`): builds `message` by a loop over `jobs`
(`job[0] == "f"` appends `"f" + job[1]`; `job[0] == "p"` appends
`"p" + job[1] + job[2]`), then returns the first 16 hex characters of
`hmac.New(sha256.New, secret)` over the message.  Out-of-range slice
indexing (`job[0]`, `job[1]`, `job[2]` on a too-short job) is a Go
panic, modelled as `none`. -/

abbrev Job := List String
abbrev JobList := List Job

def shaMessageStep (msg : String) : Job → Option String
  | [] => none
  | tag :: ops =>
    if tag = "f" then
      match ops with
      | p :: _ => some (msg ++ "f" ++ p)
      | [] => none
    else if tag = "p" then
      match ops with
      | a :: b :: _ => some (msg ++ "p" ++ a ++ b)
      | _ => none
    else some msg

/-- The canonical message signed by `calculateSHA`; `none` is a panic. -/
def shaMessage (jobs : JobList) : Option String :=
  jobs.foldlM shaMessageStep ""

/-- `calculateSHA(secret, jobs)`: first 16 lowercase hex characters of
HMAC-SHA256 over the canonical message, keyed by the secret. -/
def calculateSHA (secret : String) (jobs : JobList) : Option String :=
  (shaMessage jobs).map fun m =>
    String.mk ((bytesToHex (hmacSha256 (utf8Bytes secret) (utf8Bytes m))).take 16)

/-! ### customEscape (net/url QueryEscape + ReplaceAll "+" -> "%20") -/

/-- Bytes `url.QueryEscape` leaves unescaped: ASCII alphanumerics
and `-`, `_`, `.`, `~`. -/
def isUnreservedByte (b : Nat) : Bool :=
  (48 ≤ b && b ≤ 57) || (65 ≤ b && b ≤ 90) || (97 ≤ b && b ≤ 122) ||
    b = 45 || b = 95 || b = 46 || b = 126

/-- Uppercase hex digit, as Go's percent-encoding emits. -/
def hexUpper (n : Nat) : Char :=
  Char.ofNat (if n < 10 then 48 + n else 55 + n)

/-- How `url.QueryEscape` renders one byte: kept verbatim, space to `+`,
anything else `%XX`. -/
def escByte (b : Nat) : List Char :=
  if isUnreservedByte b then [Char.ofNat b]
  else if b = 32 then ['+']
  else ['%', hexUpper (b / 16), hexUpper (b % 16)]

/-- `url.QueryEscape`. -/
def queryEscape (s : String) : String :=
  String.mk (((utf8Bytes s).map escByte).flatten)

/-- `strings.ReplaceAll(s, "+", "%20")`: the pattern is a single
character, so it rewrites each `+` in place. -/
def replacePlus : List Char → List Char
  | [] => []
  | c :: rest => (if c = '+' then ['%', '2', '0'] else [c]) ++ replacePlus rest

/-- `customEscape`: QueryEscape, then every `+` replaced by `%20`. -/
def customEscape (s : String) : String :=
  String.mk (replacePlus (queryEscape s).data)

/-! ### path/filepath: Split, Clean, Join (unix separator) -/

/-- `strings.HasSuffix`, stated on the character lists so that it
evaluates by kernel reduction. -/
def goHasSuffix (s suffix : String) : Bool :=
  suffix.data.isSuffixOf s.data

/-- Split on `/`, as `strings.Split(p, "/")` does. -/
def splitSlash (acc : List Char) : List Char → List String
  | [] => [String.mk acc.reverse]
  | c :: rest =>
    if c = '/' then String.mk acc.reverse :: splitSlash [] rest
    else splitSlash (c :: acc) rest

/-- Join components with `/`, as `strings.Join(comps, "/")` does. -/
def joinSlash : List String → String
  | [] => ""
  | [x] => x
  | x :: rest => x ++ "/" ++ joinSlash rest

/-- `filepath.Split`: directory (through the final `/`) and file name. -/
def filepathSplit (p : String) : String × String :=
  let rev := p.data.reverse
  let fileR := rev.takeWhile (fun c => c ≠ '/')
  let dirR := rev.dropWhile (fun c => c ≠ '/')
  (String.mk dirR.reverse, String.mk fileR.reverse)

/-- The element-processing loop of `filepath.Clean`: skip empty and `.`
elements, let `..` pop a non-`..` entry (or vanish at the root). -/
def cleanFold (rooted : Bool) (acc : List String) : List String → List String
  | [] => acc
  | e :: rest =>
    if e = "" || e = "." then cleanFold rooted acc rest
    else if e = ".." then
      match acc with
      | top :: below => if top = ".." then cleanFold rooted (".." :: acc) rest
                        else cleanFold rooted below rest
      | [] => if rooted then cleanFold rooted [] rest
              else cleanFold rooted [".."] rest
    else cleanFold rooted (e :: acc) rest

/-- `filepath.Clean` for the unix separator: lexical path normalization. -/
def filepathClean (p : String) : String :=
  if p = "" then "."
  else
    let rooted := match p.data with
      | '/' :: _ => true
      | _ => false
    let comps := cleanFold rooted [] (splitSlash [] p.data)
    let body := joinSlash comps.reverse
    if rooted then "/" ++ body
    else if body = "" then "." else body

/-- `filepath.Join(dir, file)`: empty elements are skipped, the joined
string is `Clean`ed. -/
def filepathJoin (dir file : String) : String :=
  if dir = "" then (if file = "" then "" else filepathClean file)
  else filepathClean (dir ++ "/" ++ file)

/-! ### thumbRegex and generate_imgproxy_url -/

/-- The encoding applied to a Fetch job's path: split off the file
name, `customEscape` it, rejoin with `filepath.Join`. -/
def encodedFilePath (filePath : String) : String :=
  let (dir, fileName) := filepathSplit filePath
  filepathJoin dir (customEscape fileName)

/-- `thumbRegex.FindStringSubmatch`: the anchored pattern
`^(\d+)x(|\d+)(|>|#)$` as a deterministic parse — one or more digits,
an `x`, optional digits, then an optional `>` or `#` ending the
string.  Returns (width, height, operation) captures. -/
def thumbMatch (s : String) : Option (String × String × String) :=
  let cs := s.data
  let wd := cs.takeWhile Char.isDigit
  let r1 := cs.dropWhile Char.isDigit
  if wd.isEmpty then none
  else
    match r1 with
    | 'x' :: r2 =>
      let ht := r2.takeWhile Char.isDigit
      let r3 := r2.dropWhile Char.isDigit
      match r3 with
      | [] => some (String.mk wd, String.mk ht, "")
      | ['>'] => some (String.mk wd, String.mk ht, ">")
      | ['#'] => some (String.mk wd, String.mk ht, "#")
      | _ => none
    | _ => none

/-- The resize directive text chosen from the captured operation. -/
def resizeDirective (width height operation : String) : String :=
  if operation = ">" then "/rs:fit:" ++ width ++ ":" ++ height ++ ":0"
  else if operation = "#" then "/rs:fill:" ++ width ++ ":" ++ height ++ ":g:ce"
  else "/rs:fit:" ++ width ++ ":" ++ height

/-- Does `pat` occur as a contiguous substring of the second list? -/
def hasSub (pat : List Char) : List Char → Bool
  | [] => pat.isEmpty
  | c :: rest => pat.isPrefixOf (c :: rest) || hasSub pat rest

/-- Mutable locals of `generate_imgproxy_url`'s loop. -/
structure GenState where
  url : String
  thumb : String
  gifFlag : Bool
  svgFlag : Bool
deriving DecidableEq

/-- Loop result: a panic, the early `return "Failed to extract job"`,
or the state after the iteration. -/
inductive GenRes where
  | crash : GenRes
  | failedExtract : GenRes
  | ok : GenState → GenRes
deriving DecidableEq

/-- One iteration of `generate_imgproxy_url`'s job loop. -/
def genStep (st : GenState) : Job → GenRes
  | [] => .crash
  | tag :: ops =>
    if tag = "f" then
      match ops with
      | filePath :: _ =>
        let url1 := "/plain/" ++ (st.url ++ encodedFilePath filePath)
        .ok { st with
              url := url1
              gifFlag := st.gifFlag || goHasSuffix url1 ".gif"
              svgFlag := st.svgFlag || goHasSuffix url1 ".svg" }
      | [] => .crash
    else if tag = "p" then
      match ops with
      | sub :: ops2 =>
        if sub = "thumb" then
          match ops2 with
          | spec :: _ =>
            (match thumbMatch spec with
             | none => .failedExtract
             | some (width, height, operation) =>
               let d := resizeDirective width height operation
               let d := if st.gifFlag then d ++ "/f:gif" else d
               .ok { st with thumb := st.thumb ++ d })
          | [] => .crash
        else .ok st
      | [] => .crash
    else .ok st

/-- The job loop; the early return and panics abort it. -/
def genFold (st : GenState) : List Job → GenRes
  | [] => .ok st
  | j :: rest =>
    match genStep st j with
    | .ok st1 => genFold st1 rest
    | r => r

/-- `generate_imgproxy_url(url_prefix, jobs)`.  `none` is a panic;
the sentinel string is returned on a bad size spec, exactly as the Go
function returns it to its caller. -/
def generate_imgproxy_url (pre : String) (jobs : JobList) : Option String :=
  match genFold ⟨pre, "", false, false⟩ jobs with
  | .crash => none
  | .failedExtract => some "Failed to extract job"
  | .ok st =>
    let u := if st.svgFlag then "/f:svg" ++ st.url else st.url
    some ("/insecure" ++ st.thumb ++ u)

/-! ### base64.RawURLEncoding.DecodeString -/

/-- The base64url alphabet (`A–Z a–z 0–9 - _`); `none` for any other
character makes decoding fail, as Go's strict alphabet check does. -/
def b64Val (c : Char) : Option Nat :=
  let n := c.toNat
  if 65 ≤ n && n ≤ 90 then some (n - 65)
  else if 97 ≤ n && n ≤ 122 then some (n - 71)
  else if 48 ≤ n && n ≤ 57 then some (n + 4)
  else if c = '-' then some 62
  else if c = '_' then some 63
  else none

/-- Regroup 6-bit values into bytes; without padding a final group of
2 or 3 values yields 1 or 2 bytes, and a dangling single value is an
error (`CorruptInputError`). -/
def b64Groups : List Nat → Option (List Nat)
  | [] => some []
  | a :: b :: c :: d :: rest =>
    (b64Groups rest).map fun bs =>
      (a * 4 + b / 16) :: ((b % 16) * 16 + c / 4) :: ((c % 4) * 64 + d) :: bs
  | [a, b] => some [a * 4 + b / 16]
  | [a, b, c] => some [a * 4 + b / 16, (b % 16) * 16 + c / 4]
  | [_] => none

/-- `base64.RawURLEncoding.DecodeString`: newline characters are
skipped, everything else must be in the alphabet. -/
def base64Decode (s : String) : Option (List Nat) := do
  let cs := s.data.filter (fun c => !(c = '\r' || c = '\n'))
  let vals ← cs.mapM b64Val
  b64Groups vals

/-! ### json.Unmarshal into [][]string

A fuel-driven recursive-descent parser over the decoded bytes,
returning `none` exactly when `json.Unmarshal` errors: malformed
syntax, non-string leaves, trailing data.  A JSON `null` at the outer
or inner level leaves the corresponding Go slice `nil` (no error), so
it parses as an empty list. -/

def jsonWS (bs : List Nat) : List Nat :=
  bs.dropWhile (fun b => b = 32 || b = 9 || b = 10 || b = 13)

/-- Decode one UTF-8 encoded scalar from bytes; malformed sequences
become U+FFFD, as Go's JSON decoder coerces invalid UTF-8. -/
def utf8Decode1 : List Nat → Char × List Nat
  | [] => ('�', [])
  | b :: rest =>
    if b < 128 then (Char.ofNat b, rest)
    else if 192 ≤ b && b < 224 then
      match rest with
      | b2 :: r2 =>
        if 128 ≤ b2 && b2 < 192 then
          let n := (b - 192) * 64 + (b2 - 128)
          (if 128 ≤ n then Char.ofNat n else '�', r2)
        else ('�', rest)
      | [] => ('�', rest)
    else if 224 ≤ b && b < 240 then
      match rest with
      | b2 :: b3 :: r2 =>
        if 128 ≤ b2 && b2 < 192 && 128 ≤ b3 && b3 < 192 then
          let n := (b - 224) * 4096 + (b2 - 128) * 64 + (b3 - 128)
          (if 2048 ≤ n && !(55296 ≤ n && n < 57344) then Char.ofNat n
           else '�', r2)
        else ('�', rest)
      | _ => ('�', rest)
    else if 240 ≤ b && b < 248 then
      match rest with
      | b2 :: b3 :: b4 :: r2 =>
        if 128 ≤ b2 && b2 < 192 && 128 ≤ b3 && b3 < 192 && 128 ≤ b4 && b4 < 192 then
          let n := (b - 240) * 262144 + (b2 - 128) * 4096 + (b3 - 128) * 64 + (b4 - 128)
          (if 65536 ≤ n && n < 1114112 then Char.ofNat n else '�', r2)
        else ('�', rest)
      | _ => ('�', rest)
    else ('�', rest)

def jsonHexVal (b : Nat) : Option Nat :=
  if 48 ≤ b && b ≤ 57 then some (b - 48)
  else if 65 ≤ b && b ≤ 70 then some (b - 55)
  else if 97 ≤ b && b ≤ 102 then some (b - 87)
  else none

/-- Read `XXXX` of a `\uXXXX` escape. -/
def jsonHex4 : List Nat → Option (Nat × List Nat)
  | a :: b :: c :: d :: rest => do
    let va ← jsonHexVal a
    let vb ← jsonHexVal b
    let vc ← jsonHexVal c
    let vd ← jsonHexVal d
    pure (((va * 16 + vb) * 16 + vc) * 16 + vd, rest)
  | _ => none

/-- String-literal body after the opening quote, with the standard
escapes; surrogate pairs in `\u` escapes combine, lone surrogates
become U+FFFD, and raw control bytes are a syntax error. -/
def jsonStringBody (fuel : Nat) (acc : List Char) (bs : List Nat) :
    Option (String × List Nat) :=
  match fuel with
  | 0 => none
  | fuel + 1 =>
    match bs with
    | [] => none
    | 34 :: rest => some (String.mk acc.reverse, rest)
    | 92 :: esc :: rest =>
      if esc = 34 then jsonStringBody fuel ('"' :: acc) rest
      else if esc = 92 then jsonStringBody fuel ('\\' :: acc) rest
      else if esc = 47 then jsonStringBody fuel ('/' :: acc) rest
      else if esc = 98 then jsonStringBody fuel (Char.ofNat 8 :: acc) rest
      else if esc = 102 then jsonStringBody fuel (Char.ofNat 12 :: acc) rest
      else if esc = 110 then jsonStringBody fuel ('\n' :: acc) rest
      else if esc = 114 then jsonStringBody fuel ('\r' :: acc) rest
      else if esc = 116 then jsonStringBody fuel ('\t' :: acc) rest
      else if esc = 117 then
        match jsonHex4 rest with
        | none => none
        | some (v, rest1) =>
          if 55296 ≤ v && v < 56320 then
            match rest1 with
            | 92 :: 117 :: rest2 =>
              match jsonHex4 rest2 with
              | some (w, rest3) =>
                if 56320 ≤ w && w < 57344 then
                  jsonStringBody fuel
                    (Char.ofNat ((v - 55296) * 1024 + (w - 56320) + 65536) :: acc) rest3
                else jsonStringBody fuel ('�' :: acc) rest1
              | none => jsonStringBody fuel ('�' :: acc) rest1
            | _ => jsonStringBody fuel ('�' :: acc) rest1
          else if 56320 ≤ v && v < 57344 then
            jsonStringBody fuel ('�' :: acc) rest1
          else jsonStringBody fuel (Char.ofNat v :: acc) rest1
      else none
    | b :: rest =>
      if b < 32 then none
      else
        let (c, rest1) := utf8Decode1 (b :: rest)
        jsonStringBody fuel (c :: acc) rest1

/-- Elements of an inner array: strings (or `null`, a no-op leaving the
zero value `""`). -/
def jsonInnerElems (fuel : Nat) (acc : List String) (bs : List Nat) :
    Option (List String × List Nat) :=
  match fuel with
  | 0 => none
  | fuel + 1 =>
    match jsonWS bs with
    | 34 :: rest => do
      let (s, rest1) ← jsonStringBody rest.length [] rest
      match jsonWS rest1 with
      | 44 :: rest2 => jsonInnerElems fuel (s :: acc) rest2
      | 93 :: rest2 => some ((s :: acc).reverse, rest2)
      | _ => none
    | 110 :: 117 :: 108 :: 108 :: rest =>
      match jsonWS rest with
      | 44 :: rest2 => jsonInnerElems fuel ("" :: acc) rest2
      | 93 :: rest2 => some (("" :: acc).reverse, rest2)
      | _ => none
    | _ => none

/-- One inner value of the top-level array: `[ ... ]` of strings, or
`null` (leaving a nil inner slice). -/
def jsonInner (bs : List Nat) : Option (List String × List Nat) :=
  match jsonWS bs with
  | 91 :: rest =>
    (match jsonWS rest with
     | 93 :: rest1 => some ([], rest1)
     | _ => jsonInnerElems rest.length [] rest)
  | 110 :: 117 :: 108 :: 108 :: rest => some ([], rest)
  | _ => none

def jsonOuterElems (fuel : Nat) (acc : List (List String)) (bs : List Nat) :
    Option (List (List String) × List Nat) :=
  match fuel with
  | 0 => none
  | fuel + 1 => do
    let (inner, rest) ← jsonInner bs
    match jsonWS rest with
    | 44 :: rest1 => jsonOuterElems fuel (inner :: acc) rest1
    | 93 :: rest1 => some ((inner :: acc).reverse, rest1)
    | _ => none

/-- `json.Unmarshal(bytes, &jobs)` for `jobs : [][]string`: a single
top-level array (or `null`), nothing but whitespace after it. -/
def parseJobs (bs : List Nat) : Option JobList := do
  let (jobs, rest) ←
    match jsonWS bs with
    | 91 :: rest =>
      (match jsonWS rest with
       | 93 :: rest1 => some (([] : JobList), rest1)
       | _ => jsonOuterElems rest.length [] rest)
    | 110 :: 117 :: 108 :: 108 :: rest => some (([] : JobList), rest)
    | _ => none
  if (jsonWS rest).isEmpty then some jobs else none

/-! ### urlRegex

`urlRegex = \/media\/(.+?)(\.gif|.png|.jpeg|.jpg|.webp|.avif|.svg)*$`
with Go's leftmost-first semantics.  Note that only the first
alternative escapes its dot: the others begin with `.`, matching any
character except newline.  The model scans for a `/media/` occurrence
(leftmost start), then tries payload lengths in increasing order (lazy
`+?`); the starred group must consume the entire remainder. -/

/-- The seven extension alternatives: whether the leading character is
a literal dot (`\.gif`) or any non-newline character, and the literal
tail. -/
def extAlts : List (Bool × List Char) :=
  [(true, ['g', 'i', 'f']), (false, ['p', 'n', 'g']),
   (false, ['j', 'p', 'e', 'g']), (false, ['j', 'p', 'g']),
   (false, ['w', 'e', 'b', 'p']), (false, ['a', 'v', 'i', 'f']),
   (false, ['s', 'v', 'g'])]

def stripLit : List Char → List Char → Option (List Char)
  | [], s => some s
  | _ :: _, [] => none
  | l :: ls, c :: cs => if c = l then stripLit ls cs else none

/-- Match one alternative at the front, returning the remainder. -/
def extAltMatch (escapedDot : Bool) (lit : List Char) : List Char → Option (List Char)
  | [] => none
  | c :: cs =>
    if c = '\n' then none
    else if escapedDot && !(c = '.') then none
    else stripLit lit cs

/-- Can the starred extension group consume the whole remainder? -/
def extStar (fuel : Nat) (s : List Char) : Bool :=
  match fuel, s with
  | _, [] => true
  | 0, _ => false
  | fuel + 1, s =>
    extAlts.any fun alt =>
      match extAltMatch alt.1 alt.2 s with
      | some rest => extStar fuel rest
      | none => false

/-- Lazy payload search: the shortest non-empty prefix of non-newline
characters whose remainder the extension group consumes. -/
def payloadScan (accRev : List Char) : List Char → Option String
  | [] => if extStar 0 [] then some (String.mk accRev.reverse) else none
  | c :: rest =>
    if c = '\n' then
      if extStar (c :: rest).length (c :: rest) then some (String.mk accRev.reverse)
      else none
    else if extStar (c :: rest).length (c :: rest) then some (String.mk accRev.reverse)
    else payloadScan (c :: accRev) rest

/-- `urlRegex.FindStringSubmatch(path)`: the first capture (the base64
payload) when the pattern matches, else `none` (ServeHTTP's
`len(match) < 3` test fails exactly when there is no match). -/
def findMedia : List Char → Option String
  | [] => none
  | c :: rest =>
    match stripLit ['/', 'm', 'e', 'd', 'i', 'a', '/'] (c :: rest) with
    | some after =>
      (match after with
       | [] => findMedia rest
       | a :: more =>
         if a = '\n' then findMedia rest
         else
           match payloadScan [a] more with
           | some payload => some payload
           | none => findMedia rest)
    | none => findMedia rest

def urlRegexCapture (path : String) : Option String :=
  findMedia path.data

/-! ### ServeHTTP -/

/-- The two middleware configuration values. -/
structure Config where
  dragonflySecret : String
  urlPre : String
deriving DecidableEq

/-- The pieces of `*http.Request` this middleware reads or writes. -/
structure Request where
  path : String
  shaParam : String
  convertParam : String
  rawQuery : String
  requestURI : String
  accept : Option String
deriving DecidableEq

/-- The five checked failure branches of `ServeHTTP` (each calls
`http.Error` with status 500 and returns). -/
inductive ErrKind where
  | extraction : ErrKind
  | missingSha : ErrKind
  | base64Error : ErrKind
  | jsonError : ErrKind
  | shaMismatch : ErrKind
deriving DecidableEq

/-- What a call to `ServeHTTP` does: an error response without invoking
the next handler (with the request left as shown), a runtime panic, or
a forward to the next handler with the rewritten request. -/
inductive Outcome where
  | error : ErrKind → Request → Outcome
  | crash : Outcome
  | forward : Request → Outcome
deriving DecidableEq

/-- `ServeHTTP` of the `Dragonfly2imgproxy` handler. -/
def serveHTTP (cfg : Config) (req : Request) : Outcome :=
  match urlRegexCapture req.path with
  | none => .error .extraction req
  | some base64String =>
    if req.shaParam = "" then .error .missingSha req
    else
      match base64Decode base64String with
      | none => .error .base64Error req
      | some jobBytes =>
        match parseJobs jobBytes with
        | none => .error .jsonError req
        | some jobs =>
          match calculateSHA cfg.dragonflySecret jobs with
          | none => .crash
          | some computed =>
            if computed ≠ req.shaParam then .error .shaMismatch req
            else
              match generate_imgproxy_url cfg.urlPre jobs with
              | none => .crash
              | some imgproxyUrl =>
                let req1 :=
                  if req.convertParam = "false" then { req with accept := none } else req
                .forward { req1 with
                           path := imgproxyUrl
                           rawQuery := ""
                           requestURI := imgproxyUrl }

/-! ## Auxiliary definitions used by the claim statements -/

/-- Per-job shape on which `calculateSHA` does not panic: a tag is
present, `"f"` jobs carry a path, `"p"` jobs carry two operands. -/
def jobSigOK : Job → Bool
  | [] => false
  | tag :: ops =>
    if tag = "f" then !ops.isEmpty
    else if tag = "p" then 2 ≤ ops.length
    else true

/-- What one job actually contributes to the signed message: every
`"p"` job contributes `"p" ++ job[1] ++ job[2]`, whatever `job[1]` is. -/
def codeContrib (job : Job) : String :=
  if job.getD 0 "" = "f" then "f" ++ job.getD 1 ""
  else if job.getD 0 "" = "p" then "p" ++ job.getD 1 "" ++ job.getD 2 ""
  else ""

/-- In-order concatenation of the per-job contributions. -/
def codeMessage : JobList → String
  | [] => ""
  | job :: rest => codeContrib job ++ codeMessage rest

/-- The canonical message as claim C3 words it (for comparison with
`shaMessage`): `"p"` jobs contribute only when the sub-operation is
the recognized `"thumb"`. -/
def specMessageC3 : JobList → String
  | [] => ""
  | job :: rest =>
    (if job.getD 0 "" = "f" then "f" ++ job.getD 1 ""
     else if job.getD 0 "" = "p" ∧ job.getD 1 "" = "thumb" then
       "p" ++ job.getD 1 "" ++ job.getD 2 ""
     else "") ++ specMessageC3 rest

/-- `escByte` with the later `+` → `%20` rewrite folded in: how
`customEscape` renders each byte. -/
def escByteNoPlus (b : Nat) : List Char :=
  if isUnreservedByte b then [Char.ofNat b]
  else if b = 32 then ['%', '2', '0']
  else ['%', hexUpper (b / 16), hexUpper (b % 16)]

/-- Jobs the translator loop skips without touching its state: neither
a fetch nor a thumb, and long enough not to panic (`"p"` jobs with a
sub-operation other than `"thumb"`, and jobs with any other tag). -/
def genInert : Job → Bool
  | [] => false
  | tag :: ops =>
    if tag = "f" then false
    else if tag = "p" then
      match ops with
      | sub :: _ => !(sub = "thumb")
      | [] => false
    else true

/-! ## Helper lemmas -/

theorem strAppend_assoc (a b c : String) : a ++ b ++ c = a ++ (b ++ c) := by
  rcases a with ⟨la⟩; rcases b with ⟨lb⟩; rcases c with ⟨lc⟩
  show String.mk (la ++ lb ++ lc) = String.mk (la ++ (lb ++ lc))
  rw [List.append_assoc]

theorem strAppend_empty (a : String) : a ++ "" = a := by
  rcases a with ⟨la⟩
  show String.mk (la ++ []) = String.mk la
  rw [List.append_nil]

theorem strEmpty_append (a : String) : "" ++ a = a := by
  rcases a with ⟨la⟩
  show String.mk ([] ++ la) = String.mk la
  rw [List.nil_append]

theorem replacePlus_append (a b : List Char) :
    replacePlus (a ++ b) = replacePlus a ++ replacePlus b := by
  induction a with
  | nil => rfl
  | cons c rest ih => simp [replacePlus, ih]

theorem charOfNat_toNat (k : Nat) :
    (Char.ofNat k).toNat = if k.isValidChar then k else 0 := by
  unfold Char.ofNat
  split
  · rename_i hval
    simp [Char.toNat, Char.ofNatAux, UInt32.toNat]
  · simp [Char.toNat, UInt32.toNat]

theorem charOfNat_eq_plus {k : Nat} (h : Char.ofNat k = '+') : k = 43 := by
  have h1 : (Char.ofNat k).toNat = 43 := by rw [h]; decide
  rw [charOfNat_toNat] at h1
  split at h1
  · exact h1
  · exact absurd h1 (by decide)

theorem hexUpper_ne_plus (n : Nat) : hexUpper n ≠ '+' := by
  intro h
  unfold hexUpper at h
  have hk := charOfNat_eq_plus h
  split at hk <;> omega

theorem replacePlus_escByte (b : Nat) : replacePlus (escByte b) = escByteNoPlus b := by
  unfold escByte escByteNoPlus
  split
  · rename_i hu
    have hne : Char.ofNat b ≠ '+' := by
      intro h
      have := charOfNat_eq_plus h
      subst this
      simp [isUnreservedByte] at hu
    simp [replacePlus, hne]
  · split
    · rfl
    · have h1 := hexUpper_ne_plus (b / 16)
      have h2 := hexUpper_ne_plus (b % 16)
      simp [replacePlus, h1, h2]

theorem customEscape_bytes (s : String) :
    customEscape s = String.mk (((utf8Bytes s).map escByteNoPlus).flatten) := by
  unfold customEscape queryEscape
  show String.mk (replacePlus (((utf8Bytes s).map escByte).flatten)) = _
  congr 1
  induction utf8Bytes s with
  | nil => rfl
  | cons b rest ih => simp [replacePlus_append, replacePlus_escByte, ih]

theorem escByteNoPlus_no_plus (b : Nat) : '+' ∉ escByteNoPlus b := by
  unfold escByteNoPlus
  split
  · rename_i hu
    intro hmem
    have h := List.mem_singleton.mp hmem
    have hb := charOfNat_eq_plus h.symm
    subst hb
    simp [isUnreservedByte] at hu
  · split
    · decide
    · intro hmem
      rcases List.mem_cons.mp hmem with h | hmem
      · exact absurd h (by decide)
      · rcases List.mem_cons.mp hmem with h | hmem
        · exact hexUpper_ne_plus _ h.symm
        · exact hexUpper_ne_plus _ (List.mem_singleton.mp hmem).symm

theorem customEscape_no_plus (s : String) : '+' ∉ (customEscape s).data := by
  rw [customEscape_bytes]
  show '+' ∉ ((utf8Bytes s).map escByteNoPlus).flatten
  intro hmem
  rcases List.mem_flatten.mp hmem with ⟨l, hl, hc⟩
  rcases List.mem_map.mp hl with ⟨b, _, rfl⟩
  exact escByteNoPlus_no_plus b hc

theorem strData_append (a b : String) : (a ++ b).data = a.data ++ b.data := by
  rcases a with ⟨la⟩; rcases b with ⟨lb⟩; rfl

theorem strMk_data (s : String) : String.mk s.data = s := by
  rcases s with ⟨l⟩; rfl

theorem charOfNat_eq {k : Nat} {c : Char} (h : Char.ofNat k = c) :
    c.toNat = k ∨ c.toNat = 0 := by
  have h1 := charOfNat_toNat k
  rw [h] at h1
  split at h1
  · exact Or.inl h1
  · exact Or.inr h1

theorem hexUpper_ne_slash (n : Nat) : hexUpper n ≠ '/' := by
  intro h
  unfold hexUpper at h
  have h47 : ('/').toNat = 47 := by decide
  rcases charOfNat_eq h with h1 | h1 <;> rw [h47] at h1
  · split at h1 <;> omega
  · omega

theorem escByteNoPlus_no_slash (b : Nat) : '/' ∉ escByteNoPlus b := by
  unfold escByteNoPlus
  split
  · rename_i hu
    intro hmem
    have h := List.mem_singleton.mp hmem
    have h47 : ('/').toNat = 47 := by decide
    rcases charOfNat_eq h.symm with h1 | h1 <;> rw [h47] at h1
    · subst h1
      exact absurd hu (by decide)
    · exact absurd h1 (by decide)
  · split
    · decide
    · intro hmem
      rcases List.mem_cons.mp hmem with h | hmem
      · exact absurd h (by decide)
      · rcases List.mem_cons.mp hmem with h | hmem
        · exact hexUpper_ne_slash _ h.symm
        · exact hexUpper_ne_slash _ (List.mem_singleton.mp hmem).symm

theorem customEscape_no_slash (s : String) : '/' ∉ (customEscape s).data := by
  rw [customEscape_bytes]
  show '/' ∉ ((utf8Bytes s).map escByteNoPlus).flatten
  intro hmem
  rcases List.mem_flatten.mp hmem with ⟨l, hl, hc⟩
  rcases List.mem_map.mp hl with ⟨b, _, rfl⟩
  exact escByteNoPlus_no_slash b hc

theorem suffix_lift (a x : String) {l : List Char} (h : l <:+ x.data) :
    l <:+ (a ++ x).data := by
  rw [strData_append]
  exact h.trans (List.suffix_append _ _)

/-- The file-name half of `filepath.Split` keeps any slash-free suffix
of the path. -/
theorem split_file_suffix (fp : String) (ext : List Char)
    (hext : ∀ c ∈ ext, c ≠ '/') (h : ext <:+ fp.data) :
    ext <:+ ((filepathSplit fp).2).data := by
  rcases h with ⟨t, ht⟩
  show ext <:+ (fp.data.reverse.takeWhile (fun c => c ≠ '/')).reverse
  rw [← ht, List.reverse_append]
  rw [List.takeWhile_append_of_pos (by
    intro a ha
    simp only [List.mem_reverse] at ha
    simp [hext a ha])]
  rw [List.reverse_append, List.reverse_reverse]
  exact List.suffix_append _ _

/-- `customEscape` keeps a suffix made of bytes it renders verbatim. -/
theorem customEscape_suffix (s : String) (ext : List Char)
    (h1 : (ext.map utf8Char).flatten = ext.map Char.toNat)
    (h2 : ((ext.map Char.toNat).map escByteNoPlus).flatten = ext)
    (h : ext <:+ s.data) :
    ext <:+ (customEscape s).data := by
  rcases h with ⟨t, ht⟩
  rw [customEscape_bytes]
  show ext <:+ ((utf8Bytes s).map escByteNoPlus).flatten
  have hb : utf8Bytes s = (t.map utf8Char).flatten ++ ext.map Char.toNat := by
    unfold utf8Bytes
    rw [← ht, List.map_append, List.flatten_append, h1]
  rw [hb, List.map_append, List.flatten_append, h2]
  exact List.suffix_append _ _

theorem splitSlash_no_slash (cs : List Char) (h : ∀ c ∈ cs, c ≠ '/') :
    ∀ acc, splitSlash acc cs = [String.mk (acc.reverse ++ cs)] := by
  induction cs with
  | nil => intro acc; simp [splitSlash]
  | cons c rest ih =>
    intro acc
    have hc : ¬ c = '/' := h c (by simp)
    simp only [splitSlash, if_neg hc]
    rw [ih (fun x hx => h x (by simp [hx])) (c :: acc)]
    simp

theorem splitSlash_append_last (enc : List Char) (he : ∀ c ∈ enc, c ≠ '/') :
    ∀ (cs acc : List Char),
      ∃ l, splitSlash acc (cs ++ '/' :: enc) = l ++ [String.mk enc] := by
  intro cs
  induction cs with
  | nil =>
    intro acc
    refine ⟨[String.mk acc.reverse], ?_⟩
    simp only [List.nil_append, splitSlash, if_pos rfl]
    rw [splitSlash_no_slash enc he []]
    simp
  | cons c rest ih =>
    intro acc
    by_cases hc : c = '/'
    · subst hc
      rcases ih [] with ⟨l, hl⟩
      exact ⟨String.mk acc.reverse :: l, by simp [splitSlash, hl]⟩
    · rcases ih (c :: acc) with ⟨l, hl⟩
      exact ⟨l, by simp [splitSlash, hc, hl]⟩

theorem cleanFold_append (rooted : Bool) (l1 l2 : List String) :
    ∀ acc, cleanFold rooted acc (l1 ++ l2) =
      cleanFold rooted (cleanFold rooted acc l1) l2 := by
  induction l1 with
  | nil => intro acc; rfl
  | cons e rest ih =>
    intro acc
    simp only [List.cons_append, cleanFold]
    split
    · exact ih acc
    · split
      · split
        · split
          · exact ih _
          · exact ih _
        · split
          · exact ih _
          · exact ih _
      · exact ih _

theorem cleanFold_single (rooted : Bool) (acc : List String) (e : String)
    (h0 : e ≠ "") (h1 : e ≠ ".") (h2 : e ≠ "..") :
    cleanFold rooted acc [e] = e :: acc := by
  simp [cleanFold, h0, h1, h2]

theorem joinSlash_last_suffix (e : String) :
    ∀ l : List String, e.data <:+ (joinSlash (l ++ [e])).data := by
  intro l
  induction l with
  | nil => simp [joinSlash]
  | cons x rest ih =>
    cases hr : rest ++ [e] with
    | nil => exact absurd hr (by simp)
    | cons y t =>
      have hstep : joinSlash ((x :: rest) ++ [e]) =
          x ++ "/" ++ joinSlash (rest ++ [e]) := by
        rw [List.cons_append, hr]
        rfl
      rw [hstep, strData_append]
      exact ih.trans (List.suffix_append _ _)

/-- `filepath.Clean` keeps a suffix of the final path component when
that component survives cleaning (it is not empty, `.` or `..`). -/
theorem filepathClean_last_suffix (p : String) (enc ext : List Char)
    (hp : ¬ p = "")
    (hsplit : ∃ l, splitSlash [] p.data = l ++ [String.mk enc])
    (hsuf : ext <:+ enc) (hnil : ext ≠ [])
    (h0 : String.mk enc ≠ "") (h1 : String.mk enc ≠ ".")
    (h2 : String.mk enc ≠ "..") :
    ext <:+ (filepathClean p).data := by
  rcases hsplit with ⟨l, hl⟩
  unfold filepathClean
  rw [if_neg hp]
  simp only [hl, cleanFold_append, cleanFold_single _ _ _ h0 h1 h2,
    List.reverse_cons]
  have hbody : ext <:+
      (joinSlash ((cleanFold (match p.data with | '/' :: _ => true | _ => false)
        [] l).reverse ++ [String.mk enc])).data :=
    hsuf.trans (joinSlash_last_suffix (String.mk enc) _)
  split
  · exact suffix_lift "/" _ hbody
  · split
    · rename_i hbe
      rw [hbe] at hbody
      rcases hbody with ⟨t, ht⟩
      have : t ++ ext = [] := ht
      rcases List.append_eq_nil.mp this with ⟨-, hext⟩
      exact absurd hext hnil
    · exact hbody

/-- `filepath.Join` keeps a long enough slash-free suffix of the file
name. -/
theorem filepathJoin_suffix (dir enc : String) (ext : List Char)
    (hslash : ∀ c ∈ enc.data, c ≠ '/')
    (hsuf : ext <:+ enc.data)
    (hlen : 3 ≤ ext.length) :
    ext <:+ (filepathJoin dir enc).data := by
  have hnil : ext ≠ [] := by
    intro h; rw [h] at hlen; exact absurd hlen (by decide)
  have hel : 3 ≤ enc.data.length := le_trans hlen hsuf.length_le
  have h0 : enc ≠ "" := by
    intro h; rw [h] at hel; exact absurd hel (by decide)
  have h1 : enc ≠ "." := by
    intro h; rw [h] at hel; exact absurd hel (by decide)
  have h2 : enc ≠ ".." := by
    intro h; rw [h] at hel; exact absurd hel (by decide)
  have h0m : String.mk enc.data ≠ "" := by rw [strMk_data]; exact h0
  have h1m : String.mk enc.data ≠ "." := by rw [strMk_data]; exact h1
  have h2m : String.mk enc.data ≠ ".." := by rw [strMk_data]; exact h2
  unfold filepathJoin
  by_cases hd : dir = ""
  · rw [if_pos hd, if_neg h0]
    refine filepathClean_last_suffix enc enc.data ext h0 ?_ hsuf hnil h0m h1m h2m
    refine ⟨[], ?_⟩
    rw [splitSlash_no_slash enc.data hslash []]
    simp
  · rw [if_neg hd]
    have hpd : (dir ++ "/" ++ enc).data = dir.data ++ '/' :: enc.data := by
      rw [strData_append, strData_append]
      simp
    have hpne : ¬ (dir ++ "/" ++ enc) = "" := by
      intro h
      have : (dir ++ "/" ++ enc).data = [] := by rw [h]
      rw [hpd] at this
      simp at this
    refine filepathClean_last_suffix (dir ++ "/" ++ enc) enc.data ext hpne
      ?_ hsuf hnil h0m h1m h2m
    rw [hpd]
    exact splitSlash_append_last enc.data hslash dir.data []

/-- The whole fetch-path encoding keeps a suffix that `customEscape`
renders verbatim. -/
theorem encodedFilePath_suffix (fp : String) (ext : List Char)
    (hext : ∀ c ∈ ext, c ≠ '/')
    (h1 : (ext.map utf8Char).flatten = ext.map Char.toNat)
    (h2 : ((ext.map Char.toNat).map escByteNoPlus).flatten = ext)
    (hlen : 3 ≤ ext.length)
    (h : ext <:+ fp.data) :
    ext <:+ (encodedFilePath fp).data := by
  have hfile := split_file_suffix fp ext hext h
  have hesc := customEscape_suffix _ ext h1 h2 hfile
  have hns : ∀ c ∈ (customEscape (filepathSplit fp).2).data, c ≠ '/' :=
    fun c hc he => customEscape_no_slash _ (he ▸ hc)
  exact filepathJoin_suffix (filepathSplit fp).1 _ ext hns hesc hlen

/-- A fetched resource path ending in `.gif` makes the accumulated
`/plain/` URL end in `.gif` — exactly the test the loop performs. -/
theorem plainUrl_gif_suffix (u fp : String) (h : goHasSuffix fp ".gif" = true) :
    goHasSuffix ("/plain/" ++ (u ++ encodedFilePath fp)) ".gif" = true := by
  unfold goHasSuffix at h ⊢
  rw [List.isSuffixOf_iff_suffix] at h ⊢
  have he := encodedFilePath_suffix fp ".gif".data (by decide) (by decide)
    (by decide) (by decide) h
  exact suffix_lift "/plain/" _ (suffix_lift u _ he)

/-- Likewise for `.svg`. -/
theorem plainUrl_svg_suffix (u fp : String) (h : goHasSuffix fp ".svg" = true) :
    goHasSuffix ("/plain/" ++ (u ++ encodedFilePath fp)) ".svg" = true := by
  unfold goHasSuffix at h ⊢
  rw [List.isSuffixOf_iff_suffix] at h ⊢
  have he := encodedFilePath_suffix fp ".svg".data (by decide) (by decide)
    (by decide) (by decide) h
  exact suffix_lift "/plain/" _ (suffix_lift u _ he)

theorem genFold_append (jobs1 jobs2 : List Job) :
    ∀ st, genFold st (jobs1 ++ jobs2) =
      match genFold st jobs1 with
      | .ok st1 => genFold st1 jobs2
      | r => r := by
  induction jobs1 with
  | nil => intro st; rfl
  | cons j rest ih =>
    intro st
    show genFold st (j :: (rest ++ jobs2)) = _
    simp only [genFold]
    cases genStep st j with
    | ok st1 => exact ih st1
    | crash => rfl
    | failedExtract => rfl

/-- The one-job equation for a fetch: the accumulated URL is
re-prefixed with `/plain/` and the gif/svg flags pick up the new
suffix tests. -/
theorem genStep_fetch (st : GenState) (fp : String) (more : List String) :
    genStep st ("f" :: fp :: more) =
      .ok ⟨"/plain/" ++ (st.url ++ encodedFilePath fp), st.thumb,
           st.gifFlag || goHasSuffix ("/plain/" ++ (st.url ++ encodedFilePath fp)) ".gif",
           st.svgFlag || goHasSuffix ("/plain/" ++ (st.url ++ encodedFilePath fp)) ".svg"⟩ :=
  rfl

/-- The gif flag, once set, survives any loop step. -/
theorem genStep_gifFlag (st : GenState) (j : Job) (st1 : GenState)
    (h : genStep st j = .ok st1) (hg : st.gifFlag = true) : st1.gifFlag = true := by
  cases j with
  | nil => exact absurd h (by simp [genStep])
  | cons tag ops =>
    simp only [genStep] at h
    split at h
    · split at h
      · cases h
        simp [hg]
      · exact absurd h (by simp)
    · split at h
      · split at h
        · split at h
          · split at h
            · split at h
              · exact absurd h (by simp)
              · cases h
                exact hg
            · exact absurd h (by simp)
          · cases h
            exact hg
        · exact absurd h (by simp)
      · cases h
        exact hg

/-- The gif flag, once set, survives the rest of the loop. -/
theorem genFold_gifFlag (jobs : List Job) :
    ∀ st st1, genFold st jobs = .ok st1 → st.gifFlag = true → st1.gifFlag = true := by
  induction jobs with
  | nil =>
    intro st st1 h hg
    cases h
    exact hg
  | cons j rest ih =>
    intro st st1 h hg
    simp only [genFold] at h
    cases hs : genStep st j with
    | ok s2 =>
      rw [hs] at h
      exact ih s2 st1 h (genStep_gifFlag st j s2 hs hg)
    | crash => rw [hs] at h; exact absurd h (by simp)
    | failedExtract => rw [hs] at h; exact absurd h (by simp)

/-- Each loop step only ever appends to the directive fragment. -/
theorem genStep_thumb_mono (st : GenState) (j : Job) (st1 : GenState)
    (h : genStep st j = .ok st1) : ∃ t, st1.thumb = st.thumb ++ t := by
  cases j with
  | nil => exact absurd h (by simp [genStep])
  | cons tag ops =>
    simp only [genStep] at h
    split at h
    · split at h
      · cases h
        exact ⟨"", (strAppend_empty _).symm⟩
      · exact absurd h (by simp)
    · split at h
      · split at h
        · split at h
          · split at h
            · split at h
              · exact absurd h (by simp)
              · cases h
                exact ⟨_, rfl⟩
            · exact absurd h (by simp)
          · cases h
            exact ⟨"", (strAppend_empty _).symm⟩
        · exact absurd h (by simp)
      · cases h
        exact ⟨"", (strAppend_empty _).symm⟩

/-- The whole loop only ever appends to the directive fragment. -/
theorem genFold_thumb_mono (jobs : List Job) :
    ∀ st st1, genFold st jobs = .ok st1 → ∃ t, st1.thumb = st.thumb ++ t := by
  induction jobs with
  | nil =>
    intro st st1 h
    cases h
    exact ⟨"", (strAppend_empty _).symm⟩
  | cons j rest ih =>
    intro st st1 h
    simp only [genFold] at h
    cases hs : genStep st j with
    | ok s2 =>
      rw [hs] at h
      rcases genStep_thumb_mono st j s2 hs with ⟨t1, ht1⟩
      rcases ih s2 st1 h with ⟨t2, ht2⟩
      exact ⟨t1 ++ t2, by rw [ht2, ht1, strAppend_assoc]⟩
    | crash => rw [hs] at h; exact absurd h (by simp)
    | failedExtract => rw [hs] at h; exact absurd h (by simp)

/-- A thumb job processed while the gif flag is set appends `/f:gif`
immediately after its resize directive. -/
theorem genStep_thumb_gif (st : GenState) (spec : String) (more : List String)
    (w h op : String) (hg : st.gifFlag = true)
    (hm : thumbMatch spec = some (w, h, op)) :
    genStep st ("p" :: "thumb" :: spec :: more) =
      .ok { st with thumb := st.thumb ++ (resizeDirective w h op ++ "/f:gif") } := by
  simp [genStep, hm, hg]

/-- Inert jobs leave the loop state untouched. -/
theorem genStep_inert (st : GenState) (j : Job) (h : genInert j = true) :
    genStep st j = .ok st := by
  cases j with
  | nil => simp [genInert] at h
  | cons tag ops =>
    by_cases hf : tag = "f"
    · rw [hf] at h
      simp [genInert] at h
    · by_cases hp : tag = "p"
      · subst hp
        cases ops with
        | nil => simp [genInert] at h
        | cons sub ops2 =>
          have hsub : ¬ sub = "thumb" := by
            simp only [genInert, if_neg (by decide : ¬("p" : String) = "f"),
              if_pos rfl] at h
            simpa using h
          simp [genStep, hsub]
      · simp [genStep, hf, hp]

theorem genFold_inert (jobs : List Job) (h : ∀ j ∈ jobs, genInert j = true) :
    ∀ st, genFold st jobs = .ok st := by
  induction jobs with
  | nil => intro st; rfl
  | cons j rest ih =>
    intro st
    simp only [genFold, genStep_inert st j (h j (by simp))]
    exact ih (fun x hx => h x (by simp [hx])) st

/-- Through any successfully folded job list in which a `.gif` fetch
precedes a thumb job — arbitrary jobs before, between and after — the
thumb job appends its resize directive with `/f:gif` immediately after
it. -/
theorem genFold_gif_thumb (pre : String) (jobs0 : List Job) (fp : String)
    (moref : List String) (jobs1 : List Job) (spec : String)
    (morep : List String) (jobs2 : List Job) (w h op : String) (st : GenState)
    (hgif : goHasSuffix fp ".gif" = true)
    (hm : thumbMatch spec = some (w, h, op))
    (hok : genFold ⟨pre, "", false, false⟩
      (jobs0 ++ ("f" :: fp :: moref) :: jobs1) = .ok st) :
    st.gifFlag = true ∧
    genFold ⟨pre, "", false, false⟩
        (jobs0 ++ ("f" :: fp :: moref) :: jobs1 ++
          ("p" :: "thumb" :: spec :: morep) :: jobs2) =
      genFold { st with thumb := st.thumb ++ (resizeDirective w h op ++ "/f:gif") }
        jobs2 := by
  have hok0 := hok
  rw [genFold_append] at hok
  cases h0 : genFold ⟨pre, "", false, false⟩ jobs0 with
  | crash => rw [h0] at hok; exact absurd hok (by simp)
  | failedExtract => rw [h0] at hok; exact absurd hok (by simp)
  | ok s0 =>
    rw [h0] at hok
    have hb := plainUrl_gif_suffix s0.url fp hgif
    simp only [genFold, genStep_fetch, hb, Bool.or_true] at hok
    have hflag : st.gifFlag = true := genFold_gifFlag jobs1 _ st hok rfl
    refine ⟨hflag, ?_⟩
    rw [genFold_append, hok0]
    show genFold st (("p" :: "thumb" :: spec :: morep) :: jobs2) = _
    simp only [genFold, genStep_thumb_gif st spec morep w h op hflag hm]

/-- The same, carried through to the translated URL: when the jobs
after the thumb also fold successfully, the output URL reads
`/insecure`, the directives accumulated before the thumb, that thumb's
resize directive, `/f:gif` immediately after it, then the rest. -/
theorem generate_gif_url (pre : String) (jobs0 : List Job) (fp : String)
    (moref : List String) (jobs1 : List Job) (spec : String)
    (morep : List String) (jobs2 : List Job) (w h op : String)
    (st stF : GenState)
    (hgif : goHasSuffix fp ".gif" = true)
    (hm : thumbMatch spec = some (w, h, op))
    (hok : genFold ⟨pre, "", false, false⟩
      (jobs0 ++ ("f" :: fp :: moref) :: jobs1) = .ok st)
    (hok2 : genFold
      { st with thumb := st.thumb ++ (resizeDirective w h op ++ "/f:gif") }
      jobs2 = .ok stF) :
    ∃ t, generate_imgproxy_url pre
        (jobs0 ++ ("f" :: fp :: moref) :: jobs1 ++
          ("p" :: "thumb" :: spec :: morep) :: jobs2) =
      some ("/insecure" ++
        ((st.thumb ++ (resizeDirective w h op ++ ("/f:gif" ++ t))) ++
          (if stF.svgFlag then "/f:svg" ++ stF.url else stF.url))) := by
  obtain ⟨-, hfold⟩ :=
    genFold_gif_thumb pre jobs0 fp moref jobs1 spec morep jobs2 w h op st hgif hm hok
  obtain ⟨t, ht⟩ := genFold_thumb_mono jobs2 _ stF hok2
  refine ⟨t, ?_⟩
  unfold generate_imgproxy_url
  rw [hfold, hok2]
  show some ("/insecure" ++ stF.thumb ++
    (if stF.svgFlag then "/f:svg" ++ stF.url else stF.url)) = _
  rw [ht]
  simp only []
  simp [strAppend_assoc]

/-- A job list of exactly one fetch, of a resource ending in `.svg`,
among otherwise inert jobs, translates to
`/insecure/f:svg/plain/<prefix><encoded path>`. -/
theorem generate_svg_url (pre : String) (jobs0 jobs1 : List Job) (fp : String)
    (moref : List String)
    (h0 : ∀ j ∈ jobs0, genInert j = true) (h1 : ∀ j ∈ jobs1, genInert j = true)
    (hsvg : goHasSuffix fp ".svg" = true) :
    generate_imgproxy_url pre (jobs0 ++ ("f" :: fp :: moref) :: jobs1) =
      some ("/insecure" ++ ("/f:svg" ++ ("/plain/" ++ (pre ++ encodedFilePath fp)))) := by
  have hb := plainUrl_svg_suffix pre fp hsvg
  unfold generate_imgproxy_url
  rw [genFold_append, genFold_inert jobs0 h0]
  show (match genFold ⟨pre, "", false, false⟩ (("f" :: fp :: moref) :: jobs1) with
    | .crash => none
    | .failedExtract => some "Failed to extract job"
    | .ok st =>
      some ("/insecure" ++ st.thumb ++
        (if st.svgFlag then "/f:svg" ++ st.url else st.url))) = _
  simp only [genFold, genStep_fetch, Bool.false_or, hb]
  rw [genFold_inert jobs1 h1]
  simp [strEmpty_append, strAppend_empty]

/-! ## Claim theorems -/

/-- C1: whenever the pipeline reaches the signature comparison and the
recomputed signature differs from the supplied `sha` parameter,
`ServeHTTP` stops with the "SHA validate failed" error response,
leaving the request untouched: the translator's result is never applied
as a rewrite and the next handler is never invoked. -/
theorem C1_sha_mismatch_never_forwards (cfg : Config) (req : Request)
    (b64 : String) (bs : List Nat) (jobs : JobList) (computed : String)
    (hmatch : urlRegexCapture req.path = some b64)
    (hsha : req.shaParam ≠ "")
    (hb64 : base64Decode b64 = some bs)
    (hjson : parseJobs bs = some jobs)
    (hcalc : calculateSHA cfg.dragonflySecret jobs = some computed)
    (hne : computed ≠ req.shaParam) :
    serveHTTP cfg req = .error .shaMismatch req := by
  simp only [serveHTTP, hmatch, hb64, hjson, hcalc]
  rw [if_neg hsha, if_pos hne]

theorem C1_witness :
    urlRegexCapture "/media/W10" = some "W10" ∧
    base64Decode "W10" = some [91, 93] ∧
    parseJobs [91, 93] = some [] ∧
    calculateSHA "my-super-secret-key" [] = some "42279c3af96ba406" ∧
    serveHTTP ⟨"my-super-secret-key", "https://images.example.com/"⟩
        ⟨"/media/W10", "deadbeefdeadbeef", "", "sha=deadbeefdeadbeef",
         "/media/W10?sha=deadbeefdeadbeef", some "image/webp"⟩ =
      .error .shaMismatch
        ⟨"/media/W10", "deadbeefdeadbeef", "", "sha=deadbeefdeadbeef",
         "/media/W10?sha=deadbeefdeadbeef", some "image/webp"⟩ :=
  ⟨by decide, by decide, by decide, by decide,
   C1_sha_mismatch_never_forwards _ _ "W10" [91, 93] [] "42279c3af96ba406"
     (by decide) (by decide) (by decide) (by decide) (by decide) (by decide)⟩

/-- C2: `calculateSHA` returns the first 16 lowercase hexadecimal
characters of the HMAC-SHA256 digest of the canonical message keyed by
the secret, and on the documented example it computes exactly
`"ed169fbef25cac31"`. -/
theorem C2_calculateSHA_hmac (secret : String) (jobs : JobList) (m : String)
    (hmsg : shaMessage jobs = some m) :
    calculateSHA secret jobs =
      some (String.mk
        ((bytesToHex (hmacSha256 (utf8Bytes secret) (utf8Bytes m))).take 16)) ∧
    calculateSHA "my-super-secret-key"
        [["f", "public/images/some-image.jpg"], ["p", "thumb", "400x300#"]] =
      some "ed169fbef25cac31" := by
  constructor
  · simp [calculateSHA, hmsg]
  · decide

theorem C2_witness :
    calculateSHA "my-super-secret-key"
        [["f", "public/images/some-image.jpg"], ["p", "thumb", "400x300#"]] =
      some "ed169fbef25cac31" :=
  (C2_calculateSHA_hmac "my-super-secret-key"
      [["f", "public/images/some-image.jpg"], ["p", "thumb", "400x300#"]]
      "fpublic/images/some-image.jpgpthumb400x300#" (by decide)).2

/-- C4: a `"p"`/`"thumb"` job whose size spec does not match the
pattern is NOT terminal for the request: `generate_imgproxy_url`
returns the sentinel string `"Failed to extract job"`, `ServeHTTP`
never checks for it, rewrites the request path to that sentinel and
invokes the next handler.  (Claim C4 says a server-error response is
produced and the downstream handler is never invoked; the code
forwards instead.) -/
theorem C4_size_spec_error_is_forwarded :
    generate_imgproxy_url "https://images.example.com/" [["p", "thumb", "bad"]] =
      some "Failed to extract job" ∧
    serveHTTP ⟨"my-super-secret-key", "https://images.example.com/"⟩
        ⟨"/media/W1sicCIsInRodW1iIiwiYmFkIl1d", "86ae5dc53fe6e8e4", "",
         "sha=86ae5dc53fe6e8e4", "/media/W1sicCIsInRodW1iIiwiYmFkIl1d?sha=86ae5dc53fe6e8e4",
         some "image/webp"⟩ =
      .forward
        ⟨"Failed to extract job", "86ae5dc53fe6e8e4", "", "",
         "Failed to extract job", some "image/webp"⟩ := by
  constructor
  · decide
  · decide

/-- C5: a payload whose JSON decodes to a shape-invalid job list is NOT
rejected by the decoding step: `json.Unmarshal` accepts `[[]]` (an
empty inner array), `[["f"]]` (a fetch without a path) and
`[["p","thumb"]]` (a thumb without a size spec); the panic happens
afterwards, inside the signature computation (`job[0]`/`job[1]`/
`job[2]` index out of range), so `ServeHTTP` crashes instead of
returning a decode error. -/
theorem C5_invalid_shape_crashes_after_decode :
    base64Decode "W1tdXQ" = some [91, 91, 93, 93] ∧
    parseJobs [91, 91, 93, 93] = some [[]] ∧
    calculateSHA "my-super-secret-key" [[]] = none ∧
    serveHTTP ⟨"my-super-secret-key", "https://images.example.com/"⟩
        ⟨"/media/W1tdXQ", "0123456789abcdef", "", "sha=0123456789abcdef",
         "/media/W1tdXQ?sha=0123456789abcdef", none⟩ = .crash ∧
    parseJobs (utf8Bytes "[[\"f\"]]") = some [["f"]] ∧
    calculateSHA "my-super-secret-key" [["f"]] = none ∧
    parseJobs (utf8Bytes "[[\"p\",\"thumb\"]]") = some [["p", "thumb"]] ∧
    calculateSHA "my-super-secret-key" [["p", "thumb"]] = none := by
  refine ⟨by decide, by decide, by decide, by decide, by decide, by decide,
    by decide, by decide⟩

/-- C9: the extension alternatives of `urlRegex` are written with
unescaped dots (`.png`, `.jpg`, ... — only `\.gif` escapes its dot), so
the "decorative extension" can swallow part of the payload itself: for
the extensionless path `/media/abcZpng` the matcher extracts `"abc"`,
not the full payload `"abcZpng"` (the trailing `Zpng` is consumed as an
"extension").  With a genuinely dotted extension the payload survives
only when it does not itself end in one of the suffixes. -/
theorem C9_extension_swallows_payload :
    urlRegexCapture "/media/abcZpng" = some "abc" ∧
    urlRegexCapture "/media/abcZpng.jpg" = some "abc" ∧
    urlRegexCapture "/media/W1tdXQ" = some "W1tdXQ" ∧
    urlRegexCapture "/media/W1tdXQ.jpg" = some "W1tdXQ" ∧
    urlRegexCapture "/foo/bar" = none := by
  refine ⟨by decide, by decide, by decide, by decide, by decide⟩

/-- C10: every checked failure branch of `ServeHTTP` (path extraction,
missing `sha`, base64 error, JSON error, signature mismatch) responds
without having modified the request: path, raw query, request URI and
Accept header keep their original values. -/
theorem C10_error_leaves_request_unchanged (cfg : Config) (req req1 : Request)
    (k : ErrKind) (h : serveHTTP cfg req = .error k req1) : req1 = req := by
  unfold serveHTTP at h
  split at h
  · cases h; rfl
  · split at h
    · cases h; rfl
    · split at h
      · cases h; rfl
      · split at h
        · cases h; rfl
        · split at h
          · cases h
          · split at h
            · cases h; rfl
            · split at h
              · cases h
              · cases h

theorem C10_witness :
    serveHTTP ⟨"my-super-secret-key", ""⟩
        ⟨"/foo/bar", "", "", "", "/foo/bar", some "image/avif"⟩ =
      .error .extraction ⟨"/foo/bar", "", "", "", "/foo/bar", some "image/avif"⟩ ∧
    (⟨"/foo/bar", "", "", "", "/foo/bar", some "image/avif"⟩ : Request) =
      ⟨"/foo/bar", "", "", "", "/foo/bar", some "image/avif"⟩ :=
  ⟨by decide,
   C10_error_leaves_request_unchanged ⟨"my-super-secret-key", ""⟩ _ _ .extraction
     (by decide)⟩

theorem shaMessage_foldFrom (jobs : JobList) (h : ∀ j ∈ jobs, jobSigOK j = true) :
    ∀ acc, List.foldlM shaMessageStep acc jobs = some (acc ++ codeMessage jobs) := by
  induction jobs with
  | nil => intro acc; simp [codeMessage, strAppend_empty]
  | cons j rest ih =>
    intro acc
    have hj : jobSigOK j = true := h j (by simp)
    have hrest : ∀ x ∈ rest, jobSigOK x = true := fun x hx => h x (by simp [hx])
    cases j with
    | nil => simp [jobSigOK] at hj
    | cons tag ops =>
      by_cases hf : tag = "f"
      · subst hf
        cases ops with
        | nil => simp [jobSigOK] at hj
        | cons p ops2 =>
          rw [List.foldlM_cons]
          show List.foldlM shaMessageStep (acc ++ "f" ++ p) rest = _
          rw [ih hrest]
          simp [codeMessage, codeContrib, strAppend_assoc]
      · by_cases hp : tag = "p"
        · subst hp
          match ops, hj with
          | a :: b :: ops3, _ =>
            rw [List.foldlM_cons]
            show List.foldlM shaMessageStep (acc ++ "p" ++ a ++ b) rest = _
            rw [ih hrest]
            simp [codeMessage, codeContrib, strAppend_assoc]
        · rw [List.foldlM_cons]
          have hstep : shaMessageStep acc (tag :: ops) = some acc := by
            simp [shaMessageStep, hf, hp]
          rw [hstep]
          show List.foldlM shaMessageStep acc rest = _
          rw [ih hrest]
          simp [codeMessage, codeContrib, hf, hp, strEmpty_append]

/-- C3 (counterexample): the job `["p","crop","100x100"]` carries an
unrecognized sub-operation, so by the claim it should contribute
nothing to the message — but `calculateSHA`'s loop appends
`"p" ++ job[1] ++ job[2]` for every `"p"` job, giving `"pcrop100x100"`
instead of the empty message. -/
theorem C3_counterexample :
    shaMessage [["p", "crop", "100x100"]] = some "pcrop100x100" ∧
    specMessageC3 [["p", "crop", "100x100"]] = "" ∧
    shaMessage [["p", "crop", "100x100"]] ≠
      some (specMessageC3 [["p", "crop", "100x100"]]) := by
  refine ⟨by decide, by decide, by decide⟩

/-- C3 (amended): for every job list whose jobs are long enough not to
panic, the canonical message is the in-order concatenation of, for each
`"f"` job, `"f" ++ path`, and for each `"p"` job — whatever its
sub-operation, recognized or not — `"p" ++ job[1] ++ job[2]`; only
other tags contribute nothing. -/
theorem C3_amended_message (jobs : JobList) (h : ∀ j ∈ jobs, jobSigOK j = true) :
    shaMessage jobs = some (codeMessage jobs) := by
  have hfold := shaMessage_foldFrom jobs h ""
  unfold shaMessage
  rw [hfold, strEmpty_append]

theorem C3_witness :
    shaMessage [["p", "crop", "100x100"], ["f", "a.jpg"], ["zz", "q"]] =
      some (codeMessage [["p", "crop", "100x100"], ["f", "a.jpg"], ["zz", "q"]]) :=
  C3_amended_message [["p", "crop", "100x100"], ["f", "a.jpg"], ["zz", "q"]]
    (by decide)

/-- C6: for any size spec accepted by `thumbRegex`, the resize
directive is chosen by the operator exactly as claimed, and the three
documented examples translate as stated. -/
theorem C6_resize_directive (s w h op : String)
    (hm : thumbMatch s = some (w, h, op)) :
    (op = "#" → resizeDirective w h op = "/rs:fill:" ++ w ++ ":" ++ h ++ ":g:ce") ∧
    (op = ">" → resizeDirective w h op = "/rs:fit:" ++ w ++ ":" ++ h ++ ":0") ∧
    (op = "" → resizeDirective w h op = "/rs:fit:" ++ w ++ ":" ++ h) ∧
    generate_imgproxy_url "" [["p", "thumb", "100x100#"]] =
      some "/insecure/rs:fill:100:100:g:ce" ∧
    generate_imgproxy_url "" [["p", "thumb", "200x>"]] =
      some "/insecure/rs:fit:200::0" ∧
    generate_imgproxy_url "" [["p", "thumb", "300x"]] =
      some "/insecure/rs:fit:300:" := by
  refine ⟨?_, ?_, ?_, by decide, by decide, by decide⟩
  · intro hop; subst hop
    rw [resizeDirective, if_neg (by decide), if_pos rfl]
  · intro hop; subst hop
    rw [resizeDirective, if_pos rfl]
  · intro hop; subst hop
    rw [resizeDirective, if_neg (by decide), if_neg (by decide)]

theorem C6_witness :
    resizeDirective "400" "300" "#" = "/rs:fill:400:300:g:ce" :=
  ((C6_resize_directive "400x300#" "400" "300" "#" (by decide)).1 rfl).trans
    (by decide)

/-- C7 (counterexample): the claim fails as stated.  (i) With the
thumb job placed before the `.gif` fetch, the gif flag is still unset
when the resize directive is emitted, so the translated URL contains
no `/f:gif` at all, although the list combines a `.gif` fetch with a
thumb job.  (ii) With a second fetch job, an `.svg` fetch and no thumb
job does not produce `/insecure/f:svg/plain/<prefix><encoded path>` —
the `/plain/` marker is duplicated.  (iii) A `"p"` job that is too
short panics, so such a no-thumb list yields no translated URL at
all. -/
theorem C7_counterexample :
    (generate_imgproxy_url "" [["p", "thumb", "100x100#"], ["f", "a.gif"]] =
      some "/insecure/rs:fill:100:100:g:ce/plain/a.gif" ∧
     hasSub "/f:gif".data "/insecure/rs:fill:100:100:g:ce/plain/a.gif".data =
      false) ∧
    (generate_imgproxy_url "" [["f", "a.svg"], ["f", "b.jpg"]] =
      some "/insecure/f:svg/plain//plain/a.svgb.jpg" ∧
     "/insecure/f:svg/plain//plain/a.svgb.jpg" ≠ "/insecure/f:svg/plain/a.svgb.jpg" ∧
     "/insecure/f:svg/plain//plain/a.svgb.jpg" ≠ "/insecure/f:svg/plain/a.svg" ∧
     "/insecure/f:svg/plain//plain/a.svgb.jpg" ≠ "/insecure/f:svg/plain/b.jpg") ∧
    generate_imgproxy_url "" [["f", "v.svg"], ["p"]] = none := by
  refine ⟨⟨by decide, by decide⟩, ⟨by decide, by decide, by decide, by decide⟩,
    by decide⟩

/-- C7 (amended): (1) the gif flag, once set, survives the rest of the
loop; (2) a thumb job processed with the flag set appends `/f:gif`
immediately after its resize directive; (3) in every job list in which
a fetch of a resource ending in `.gif` precedes a thumb job — whatever
jobs come before, between or after — that thumb job's step appends its
directive followed immediately by `/f:gif`; (4) when the jobs after
the thumb also run through, the translated URL reads `/insecure`, the
earlier directives, this resize directive, `/f:gif` directly after it,
then the rest of the URL; (5) a job list of exactly one fetch, of a
resource ending in `.svg`, with no thumb job and otherwise only jobs
the translator skips, yields `/insecure/f:svg/plain/<prefix><encoded
path>`. -/
theorem C7_gif_order_and_svg_shape :
    (∀ st jobs st1, genFold st jobs = .ok st1 →
      st.gifFlag = true → st1.gifFlag = true) ∧
    (∀ st spec more w h op, st.gifFlag = true →
      thumbMatch spec = some (w, h, op) →
      genStep st ("p" :: "thumb" :: spec :: more) =
        .ok { st with thumb := st.thumb ++ (resizeDirective w h op ++ "/f:gif") }) ∧
    (∀ pre jobs0 fp moref jobs1 spec morep jobs2 w h op st,
      goHasSuffix fp ".gif" = true →
      thumbMatch spec = some (w, h, op) →
      genFold ⟨pre, "", false, false⟩
        (jobs0 ++ ("f" :: fp :: moref) :: jobs1) = .ok st →
      genFold ⟨pre, "", false, false⟩
          (jobs0 ++ ("f" :: fp :: moref) :: jobs1 ++
            ("p" :: "thumb" :: spec :: morep) :: jobs2) =
        genFold { st with thumb := st.thumb ++ (resizeDirective w h op ++ "/f:gif") }
          jobs2) ∧
    (∀ pre jobs0 fp moref jobs1 spec morep jobs2 w h op st stF,
      goHasSuffix fp ".gif" = true →
      thumbMatch spec = some (w, h, op) →
      genFold ⟨pre, "", false, false⟩
        (jobs0 ++ ("f" :: fp :: moref) :: jobs1) = .ok st →
      genFold { st with thumb := st.thumb ++ (resizeDirective w h op ++ "/f:gif") }
        jobs2 = .ok stF →
      ∃ t, generate_imgproxy_url pre
          (jobs0 ++ ("f" :: fp :: moref) :: jobs1 ++
            ("p" :: "thumb" :: spec :: morep) :: jobs2) =
        some ("/insecure" ++
          ((st.thumb ++ (resizeDirective w h op ++ ("/f:gif" ++ t))) ++
            (if stF.svgFlag then "/f:svg" ++ stF.url else stF.url)))) ∧
    (∀ pre jobs0 jobs1 fp moref,
      (∀ j ∈ jobs0, genInert j = true) → (∀ j ∈ jobs1, genInert j = true) →
      goHasSuffix fp ".svg" = true →
      generate_imgproxy_url pre (jobs0 ++ ("f" :: fp :: moref) :: jobs1) =
        some ("/insecure" ++ ("/f:svg" ++ ("/plain/" ++ (pre ++ encodedFilePath fp))))) := by
  refine ⟨?_, ?_, ?_, ?_, ?_⟩
  · intro st jobs st1 hf hg
    exact genFold_gifFlag jobs st st1 hf hg
  · intro st spec more w h op hg hm
    exact genStep_thumb_gif st spec more w h op hg hm
  · intro pre jobs0 fp moref jobs1 spec morep jobs2 w h op st hgif hm hok
    exact (genFold_gif_thumb pre jobs0 fp moref jobs1 spec morep jobs2
      w h op st hgif hm hok).2
  · intro pre jobs0 fp moref jobs1 spec morep jobs2 w h op st stF hgif hm hok hok2
    exact generate_gif_url pre jobs0 fp moref jobs1 spec morep jobs2
      w h op st stF hgif hm hok hok2
  · intro pre jobs0 jobs1 fp moref h0 h1 hsvg
    exact generate_svg_url pre jobs0 jobs1 fp moref h0 h1 hsvg

theorem C7_witness :
    genFold ⟨"p/", "", false, false⟩
        [["x"], ["f", "a.gif"], ["p", "crop", "9x"], ["p", "thumb", "150x150#"],
         ["q"]] =
      .ok ⟨"/plain/p/a.gif", "/rs:fill:150:150:g:ce/f:gif", true, false⟩ ∧
    generate_imgproxy_url "p/" [["x"], ["f", "v.svg"], ["p", "crop", "9x"]] =
      some "/insecure/f:svg/plain/p/v.svg" := by
  constructor
  · have h3 := C7_gif_order_and_svg_shape.2.2.1 "p/" [["x"]] "a.gif" []
      [["p", "crop", "9x"]] "150x150#" [] [["q"]] "150" "150" "#"
      ⟨"/plain/p/a.gif", "", true, false⟩
      (by decide) (by decide) (by decide)
    exact h3.trans (by decide)
  · have h5 := C7_gif_order_and_svg_shape.2.2.2.2 "p/" [["x"]]
      [["p", "crop", "9x"]] "v.svg" [] (by decide) (by decide) (by decide)
    exact h5.trans (by decide)

/-- C8 (counterexample): the directory component is NOT left as-is —
`filepath.Join` runs `Clean` over the rejoined path, so a `./` (or a
doubled slash) in the directory is normalized away while the file name
is escaped. -/
theorem C8_counterexample :
    encodedFilePath "./file name.jpg" = "file%20name.jpg" ∧
    "./" ++ customEscape "file name.jpg" = "./file%20name.jpg" ∧
    encodedFilePath "./file name.jpg" ≠ "./" ++ customEscape "file name.jpg" := by
  refine ⟨by decide, by decide, by decide⟩

/-- C8 (amended): only the file name is percent-encoded — the
directory is never escaped but is path-cleaned by the rejoin.  The
escaping renders each byte with space as `%20` (a `+` never survives,
and `+` itself becomes `%2B`), `%` as `%25` (so encoding re-encodes
already-encoded input and is deliberately not idempotent). -/
theorem C8_filename_escaping :
    (∀ s, customEscape s = String.mk (((utf8Bytes s).map escByteNoPlus).flatten)) ∧
    (∀ s, '+' ∉ (customEscape s).data) ∧
    escByteNoPlus 32 = ['%', '2', '0'] ∧
    escByteNoPlus 37 = ['%', '2', '5'] ∧
    escByteNoPlus 43 = ['%', '2', 'B'] ∧
    customEscape "file%20name.jpg" = "file%2520name.jpg" ∧
    customEscape (customEscape "my file.jpg") ≠ customEscape "my file.jpg" ∧
    (∀ p, encodedFilePath p =
        filepathJoin (filepathSplit p).1 (customEscape (filepathSplit p).2)) ∧
    encodedFilePath "public/my file.jpg" = "public/my%20file.jpg" :=
  ⟨customEscape_bytes, customEscape_no_plus, by decide, by decide, by decide,
   by decide, by decide, fun p => rfl, by decide⟩

end D2I
